import Mathlib

/-!
Shallow embedding of `src/nussl/ml/unfold/gaussian_mixture.py` (class
`GaussianMixture`): batched GMM fitted by a fixed number of EM iterations.

Tensors are embedded as functions over `Fin`-indexed axes with exact rational
entries (the claims speak of exact real arithmetic).  The two transcendental
ingredients of the E-step — `torch.exp` and
`torch.distributions.MultivariateNormal.log_prob` — enter the embedding as
parameters (`expF`, `mvnLP`); where a claim needs a fact about them the
theorem assumes exactly what holds of the real functions (e.g. `0 ≤ exp x`).
All other operations (masking, clamping, sums, normalization, the EM loop)
are embedded exactly as written in the source.
-/

namespace NusslGMM

open Finset

/-- Python's substring test on `List Char`: `needle in hay`. -/
def listHasSub (needle : List Char) : List Char → Bool
  | [] => needle.isEmpty
  | c :: t => needle.isPrefixOf (c :: t) || listHasSub needle t

/-- Python's `needle in hay` on strings, as used by
`_enforce_covariance_type` (lines 110, 118, 121 of the source). -/
def pyIn (needle hay : String) : Bool :=
  listHasSub needle.data hay.data

/-- Data tensor, shape `(n_batch, n_samples, n_features)`. -/
abbrev DataT (B S F : ℕ) := Fin B → Fin S → Fin F → ℚ

/-- Means tensor, shape `(n_batch, n_components, n_features)`. -/
abbrev MeansT (B K F : ℕ) := Fin B → Fin K → Fin F → ℚ

/-- Covariance tensor, shape `(n_batch, n_components, n_features, n_features)`. -/
abbrev CovT (B K F : ℕ) := Fin B → Fin K → Fin F → Fin F → ℚ

/-- Responsibilities / log-probabilities, shape `(n_batch, n_samples, n_components)`. -/
abbrev RespT (B S K : ℕ) := Fin B → Fin S → Fin K → ℚ

/-- Priors as values, one per `(batch, component)` (the tensor returned by the
source carries extra singleton axes; see `mStepPriorShape`). -/
abbrev PriorT (B K : ℕ) := Fin B → Fin K → ℚ

/-- `torch.eye(n_features)` broadcast as in lines 107-108: entry `(i, j)` of the
diagonal mask. -/
def diagMask {F : ℕ} (i j : Fin F) : ℚ :=
  if i = j then 1 else 0

/-- `GaussianMixture._enforce_covariance_type` (lines 105-125), value level.
The three `if` blocks run in sequence, each guarded by Python substring
membership of the literal in `self.covariance_type`:
spherical fills every matrix with its mean over both feature axes then
multiplies by the diagonal mask; diag multiplies by the diagonal mask;
tied replaces each component matrix by the mean over the component axis. -/
def enforceCovarianceType {B K F : ℕ} (ctype : String) (cov : CovT B K F) :
    CovT B K F :=
  let c1 : CovT B K F :=
    if pyIn "spherical" ctype then
      fun b k i j =>
        ((∑ i2 : Fin F, ∑ j2 : Fin F, cov b k i2 j2) / ((F : ℚ) * (F : ℚ)))
          * diagMask i j
    else cov
  let c2 : CovT B K F :=
    if pyIn "diag" ctype then (fun b k i j => c1 b k i j * diagMask i j) else c1
  let c3 : CovT B K F :=
    if pyIn "tied" ctype then
      fun b _k i j => (∑ k2 : Fin K, c2 b k2 i j) / (K : ℚ)
    else c2
  c3

/-- Configuration stored by `GaussianMixture.__init__` (lines 37-41). -/
structure GaussianMixture where
  n_components : ℕ
  n_iter : ℕ
  covariance_type : String
  covariance_init : ℚ
  reg_covar : ℚ

/-- `GaussianMixture.__init__` (lines 6-43).  Line 38 of the source reads
`self.n_iter = 5`: the stored iteration count is the literal `5`, not the
`n_iter` argument. -/
def gmInit (n_components n_iter : ℕ) (covariance_type : String)
    (covariance_init reg_covar : ℚ) : GaussianMixture :=
  { n_components := n_components
    n_iter := 5
    covariance_type := covariance_type
    covariance_init := covariance_init
    reg_covar := reg_covar }

/-- Number of E-step/M-step pairs executed by `forward` (line 186:
`for i in range(self.n_iter)`), as a function of the stored configuration. -/
def forwardIterationCount (gm : GaussianMixture) : ℕ :=
  gm.n_iter

/-- `torch.clamp(x, min=m)` on a single entry. -/
def clampMin (x m : ℚ) : ℚ :=
  max x m

/-- Means computed by `_m_step` (lines 60-62): `(resp * X).sum(dim=1) /
resp.sum(dim=1)`, per `(batch, component, feature)`. -/
def mStepMeans {B S K F : ℕ} (X : DataT B S F) (resp : RespT B S K) :
    MeansT B K F :=
  fun b k f => (∑ s : Fin S, resp b s k * X b s f) / (∑ s : Fin S, resp b s k)

/-- Raw covariance of `_m_step` before clamping (lines 66-69):
`diff = (X - means) * resp`, then the batched matrix product
`diff.permute(0,2,3,1) @ diff.permute(0,2,1,3)` divided by `_bottom`.
Note the responsibilities enter squared, exactly as in the source. -/
def mStepCovRaw {B S K F : ℕ} (X : DataT B S F) (resp : RespT B S K) :
    CovT B K F :=
  fun b k i j =>
    (∑ s : Fin S,
        (resp b s k * (X b s i - mStepMeans X resp b k i)) *
          (resp b s k * (X b s j - mStepMeans X resp b k j)))
      / (∑ s : Fin S, resp b s k)

/-- Covariance returned by `_m_step` (lines 66-71): the raw covariance is
clamped entrywise to `reg_covar` and then passed through
`_enforce_covariance_type`. -/
def mStepCov {B S K F : ℕ} (reg : ℚ) (ctype : String) (X : DataT B S F)
    (resp : RespT B S K) : CovT B K F :=
  enforceCovarianceType ctype (fun b k i j => clampMin (mStepCovRaw X resp b k i j) reg)

/-- Prior returned by `_m_step` (lines 61, 74): `prior = _bottom =
resp.sum(dim=1, keepdims=True)`, value per `(batch, component)`. -/
def mStepPrior {B S K : ℕ} (resp : RespT B S K) : PriorT B K :=
  fun b k => ∑ s : Fin S, resp b s k

/-- `_e_step` (lines 79-103).  `mvnLP` stands for
`MultivariateNormal(means, covariance).log_prob(X)` and `expF` for
`torch.exp`, both transcendental and therefore parameters of the embedding.
`prob = exp(log_prob) + 1e-8`, and `resp = normalize(prob, p=1, dim=-1)`
where `torch.nn.functional.normalize` divides by `max(‖·‖₁, 1e-12)`.
Returns `(resp, log_prob)`. -/
def eStep {B S K F : ℕ} (expF : ℚ → ℚ)
    (mvnLP : DataT B S F → MeansT B K F → CovT B K F → RespT B S K)
    (X : DataT B S F) (means : MeansT B K F) (cov : CovT B K F) :
    RespT B S K × RespT B S K :=
  let logProb := mvnLP X means cov
  let prob : RespT B S K := fun b s k => expF (logProb b s k) + 1 / 100000000
  let resp : RespT B S K := fun b s k =>
    prob b s k / max (∑ k2 : Fin K, |prob b s k2|) (1 / 1000000000000)
  (resp, logProb)

/-- Covariance produced by `init_params` when the caller supplies a 4-axis
covariance (lines 157-162): multiply by the diagonal mask into a fresh
tensor, then apply `_enforce_covariance_type`. -/
def initParamsCov {B K F : ℕ} (ctype : String) (cov : CovT B K F) : CovT B K F :=
  enforceCovarianceType ctype (fun b k i j => cov b k i j * diagMask i j)

/-- The dictionary returned by `forward` (lines 190-196), on the flattened
`(n_batch, n_samples, n_features)` view of the data.  The final
`resp.view(shape[:-1] + (-1,))` / `log_prob.view(...)` reshapes are
entrywise bijections restoring the caller's middle axes; values are
represented here in flattened form. -/
structure EMResult (B S K F : ℕ) where
  resp : RespT B S K
  log_prob : RespT B S K
  means : MeansT B K F
  covariance : CovT B K F
  prior : PriorT B K

/-- One full iteration of the loop body of `forward` (lines 186-188),
restricted to the parameters carried from one iteration to the next:
an E-step with the current `(means, covariance)` followed by an M-step on
the resulting responsibilities. -/
def emStepParams {B S K F : ℕ} (expF : ℚ → ℚ)
    (mvnLP : DataT B S F → MeansT B K F → CovT B K F → RespT B S K)
    (reg : ℚ) (ctype : String) (X : DataT B S F)
    (mc : MeansT B K F × CovT B K F) : MeansT B K F × CovT B K F :=
  let resp := (eStep expF mvnLP X mc.1 mc.2).1
  (mStepMeans X resp, mStepCov reg ctype X resp)

/-- The loop of `forward` (lines 186-188) with `fuel + 1` iterations left,
starting from parameters `mc`; returns the bundle of lines 190-196.
(`forward` with `n_iter = 0` would raise `NameError` in Python — `resp` is
never bound — so the loop is modelled for at least one iteration.) -/
def emLoop {B S K F : ℕ} (expF : ℚ → ℚ)
    (mvnLP : DataT B S F → MeansT B K F → CovT B K F → RespT B S K)
    (reg : ℚ) (ctype : String) (X : DataT B S F) (fuel : ℕ)
    (mc : MeansT B K F × CovT B K F) : EMResult B S K F :=
  let el := eStep expF mvnLP X mc.1 mc.2
  let resp := el.1
  let logProb := el.2
  let means := mStepMeans X resp
  let cov := mStepCov reg ctype X resp
  let prior := mStepPrior resp
  match fuel with
  | 0 => ⟨resp, logProb, means, cov, prior⟩
  | f + 1 => emLoop expF mvnLP reg ctype X f (means, cov)

/-- `forward` (lines 166-196) with caller-supplied initial means and a
4-axis caller-supplied initial covariance, run for `nIter` iterations
(`nIter` is read from `self.n_iter`; see `gmInit`).  `init_params` keeps the
supplied means and masks-then-constrains the supplied covariance. -/
def forwardFit {B S K F : ℕ} (expF : ℚ → ℚ)
    (mvnLP : DataT B S F → MeansT B K F → CovT B K F → RespT B S K)
    (reg : ℚ) (ctype : String) (nIter : ℕ) (X : DataT B S F)
    (means0 : MeansT B K F) (cov0 : CovT B K F) : EMResult B S K F :=
  emLoop expF mvnLP reg ctype X (nIter - 1) (means0, initParamsCov ctype cov0)

theorem emLoop_eq {B S K F : ℕ} (expF : ℚ → ℚ)
    (mvnLP : DataT B S F → MeansT B K F → CovT B K F → RespT B S K)
    (reg : ℚ) (ctype : String) (X : DataT B S F) (fuel : ℕ)
    (mc : MeansT B K F × CovT B K F) :
    emLoop expF mvnLP reg ctype X fuel mc =
      let mc2 := (emStepParams expF mvnLP reg ctype X)^[fuel] mc
      let el := eStep expF mvnLP X mc2.1 mc2.2
      ⟨el.1, el.2, mStepMeans X el.1, mStepCov reg ctype X el.1,
        mStepPrior el.1⟩ := by
  induction fuel generalizing mc with
  | zero => rfl
  | succ f ih =>
    rw [Function.iterate_succ_apply]
    exact ih (emStepParams expF mvnLP reg ctype X mc)

theorem enforce_full {B K F : ℕ} (cov : CovT B K F) :
    enforceCovarianceType "full" cov = cov := by
  have hs : pyIn "spherical" "full" = false := by decide
  have hd : pyIn "diag" "full" = false := by decide
  have ht : pyIn "tied" "full" = false := by decide
  simp [enforceCovarianceType, hs, hd, ht]

theorem enforce_diag {B K F : ℕ} (cov : CovT B K F) :
    enforceCovarianceType "diag" cov =
      fun b k i j => if i = j then cov b k i j else 0 := by
  have hs : pyIn "spherical" "diag" = false := by decide
  have hd : pyIn "diag" "diag" = true := by decide
  have ht : pyIn "tied" "diag" = false := by decide
  funext b k i j
  simp only [enforceCovarianceType, hs, hd, ht, diagMask, Bool.false_eq_true,
    if_false, if_true]
  split <;> simp

theorem enforce_spherical {B K F : ℕ} (cov : CovT B K F) :
    enforceCovarianceType "spherical" cov =
      fun b k i j =>
        if i = j then
          (∑ i2 : Fin F, ∑ j2 : Fin F, cov b k i2 j2) / ((F : ℚ) * (F : ℚ))
        else 0 := by
  have hs : pyIn "spherical" "spherical" = true := by decide
  have hd : pyIn "diag" "spherical" = false := by decide
  have ht : pyIn "tied" "spherical" = false := by decide
  funext b k i j
  simp only [enforceCovarianceType, hs, hd, ht, diagMask, Bool.false_eq_true,
    if_false, if_true]
  split <;> simp

theorem enforce_tied {B K F : ℕ} (cov : CovT B K F) :
    enforceCovarianceType "tied" cov =
      fun b _k i j => (∑ k2 : Fin K, cov b k2 i j) / (K : ℚ) := by
  have hs : pyIn "spherical" "tied" = false := by decide
  have hd : pyIn "diag" "tied" = false := by decide
  have ht : pyIn "tied" "tied" = true := by decide
  simp [enforceCovarianceType, hs, hd, ht]

/-- C3: for each configured `covariance_type` in {full, tied, diag, spherical},
`_enforce_covariance_type` applies exactly one of the four behaviors:
full — unchanged; diag — off-diagonal entries exactly zero, diagonal
preserved; spherical — diagonal entries all equal to the mean of the
`(batch, component)` matrix's entries, off-diagonals zero; tied — every
component of a batch element gets the identical component-mean matrix.
No configured type applies two behaviors. -/
theorem enforce_covariance_type_exactly_one_behavior {B K F : ℕ}
    (cov : CovT B K F) (b : Fin B) (k : Fin K) (i j : Fin F) :
    enforceCovarianceType "full" cov b k i j = cov b k i j
  ∧ enforceCovarianceType "diag" cov b k i j = (if i = j then cov b k i j else 0)
  ∧ enforceCovarianceType "spherical" cov b k i j =
      (if i = j then
        (∑ i2 : Fin F, ∑ j2 : Fin F, cov b k i2 j2) / ((F : ℚ) * (F : ℚ))
      else 0)
  ∧ enforceCovarianceType "tied" cov b k i j =
      (∑ k2 : Fin K, cov b k2 i j) / (K : ℚ) := by
  refine ⟨?_, ?_, ?_, ?_⟩
  · rw [enforce_full]
  · rw [enforce_diag]
  · rw [enforce_spherical]
  · rw [enforce_tied]

/-- C6 (code bug): `__init__` performs no validation of `covariance_type` —
constructing with the unknown string `"banana"` succeeds and stores it —
and `_enforce_covariance_type` leaves the covariance unchanged for it
(none of the substring checks fires), i.e. the unknown type is silently
treated as unconstrained full covariance instead of raising
`InvalidConfigurationError`. -/
theorem unknown_covariance_type_accepted_as_full {B K F : ℕ} (cov : CovT B K F) :
    (gmInit 2 5 "banana" 1 (1 / 10000)).covariance_type = "banana"
  ∧ enforceCovarianceType "banana" cov = cov := by
  have hs : pyIn "spherical" "banana" = false := by decide
  have hd : pyIn "diag" "banana" = false := by decide
  have ht : pyIn "tied" "banana" = false := by decide
  exact ⟨rfl, by simp [enforceCovarianceType, hs, hd, ht]⟩

/-- C1 (code bug): line 38 of the source reads `self.n_iter = 5`, so the
`n_iter` argument of the constructor is ignored: constructing with
`n_iter = 3` stores `5`, and `forward`'s loop (`range(self.n_iter)`) runs
5 E-step/M-step pairs, not the configured 3. -/
theorem gm_init_hardcodes_n_iter :
    (gmInit 2 3 "diag" 1 (1 / 10000)).n_iter = 5
  ∧ forwardIterationCount (gmInit 2 3 "diag" 1 (1 / 10000)) ≠ 3 := by
  exact ⟨rfl, by decide⟩

theorem le_sum_div_card {n : ℕ} (f : Fin n → ℚ) (c : ℚ) (h : ∀ x, c ≤ f x)
    (hn : 0 < n) : c ≤ (∑ x : Fin n, f x) / (n : ℚ) := by
  have hn2 : (0 : ℚ) < (n : ℚ) := by exact_mod_cast hn
  rw [le_div_iff₀ hn2]
  calc c * (n : ℚ) = (n : ℚ) * c := by ring
    _ = ∑ _x : Fin n, c := by
        simp [Finset.sum_const, Finset.card_univ, nsmul_eq_mul]
    _ ≤ ∑ x : Fin n, f x := Finset.sum_le_sum fun x _ => h x

/-- C2 counterexample: with `covariance_type = "diag"`, `reg_covar = 1/10000`,
one batch element, one sample, one component, two features, data all zero
and responsibility one, the M-step covariance entry at `(0, 0, 0, 1)` (an
off-diagonal entry) is `0 < reg_covar`: the clamp happens before the
constraint, which zeroes off-diagonal entries. -/
theorem mStep_covariance_entry_below_reg_covar :
    mStepCov (1 / 10000) "diag"
        (fun (_ : Fin 1) (_ : Fin 1) (_ : Fin 2) => (0 : ℚ))
        (fun (_ : Fin 1) (_ : Fin 1) (_ : Fin 1) => (1 : ℚ)) 0 0 0 1
      < 1 / 10000 := by
  rw [show mStepCov (1 / 10000) "diag"
        (fun (_ : Fin 1) (_ : Fin 1) (_ : Fin 2) => (0 : ℚ))
        (fun (_ : Fin 1) (_ : Fin 1) (_ : Fin 1) => (1 : ℚ)) 0 0 0 1 = 0 from ?_]
  · norm_num
  · rw [mStepCov, enforce_diag]
    norm_num

/-- C2 amended: after the M-step the clamp to `reg_covar` happens before
`_enforce_covariance_type`, so what holds is: every entry is `≥ reg_covar`
for `full` and `tied`, and every *diagonal* entry is `≥ reg_covar` for
`diag` and `spherical` (their off-diagonal entries are exactly zero, hence
below any positive `reg_covar`). -/
theorem mStep_covariance_diagonal_ge_reg_covar {B S K F : ℕ} (reg : ℚ)
    (X : DataT B S F) (resp : RespT B S K) (b : Fin B) (k : Fin K)
    (i j : Fin F) :
    reg ≤ mStepCov reg "full" X resp b k i j
  ∧ reg ≤ mStepCov reg "tied" X resp b k i j
  ∧ reg ≤ mStepCov reg "diag" X resp b k i i
  ∧ reg ≤ mStepCov reg "spherical" X resp b k i i := by
  have hbase : ∀ (b2 : Fin B) (k2 : Fin K) (i2 j2 : Fin F),
      reg ≤ clampMin (mStepCovRaw X resp b2 k2 i2 j2) reg :=
    fun _ _ _ _ => le_max_right _ _
  refine ⟨?_, ?_, ?_, ?_⟩
  · rw [mStepCov, enforce_full]; exact hbase b k i j
  · rw [mStepCov, enforce_tied]
    exact le_sum_div_card _ reg (fun k2 => hbase b k2 i j) k.pos
  · rw [mStepCov, enforce_diag]
    simpa using hbase b k i i
  · rw [mStepCov, enforce_spherical]
    simp only [eq_self_iff_true, if_true]
    have hF : 0 < F := i.pos
    have hFF : (F : ℚ) * (F : ℚ) = ((F * F : ℕ) : ℚ) := by push_cast; ring
    rw [hFF]
    have hFF2 : (0 : ℚ) < ((F * F : ℕ) : ℚ) := by
      exact_mod_cast Nat.mul_pos hF hF
    rw [le_div_iff₀ hFF2]
    have hinner : ∀ i2 : Fin F,
        (F : ℚ) * reg ≤ ∑ j2 : Fin F, clampMin (mStepCovRaw X resp b k i2 j2) reg := by
      intro i2
      calc (F : ℚ) * reg = ∑ _j2 : Fin F, reg := by
            simp [Finset.sum_const, Finset.card_univ, nsmul_eq_mul]
        _ ≤ _ := Finset.sum_le_sum fun j2 _ => hbase b k i2 j2
    calc reg * ((F * F : ℕ) : ℚ) = ∑ _i2 : Fin F, (F : ℚ) * reg := by
          rw [Finset.sum_const, Finset.card_univ, Fintype.card_fin, nsmul_eq_mul]
          push_cast
          ring
      _ ≤ ∑ i2 : Fin F, ∑ j2 : Fin F, clampMin (mStepCovRaw X resp b k i2 j2) reg :=
          Finset.sum_le_sum fun i2 _ => hinner i2

theorem sum_div_max_abs_eq_one {K : ℕ} (g : Fin K → ℚ) (hpos : ∀ k, 0 < g k)
    (hbig : (1 : ℚ) / 1000000000000 < ∑ k : Fin K, g k) :
    ∑ k : Fin K, g k / max (∑ k2 : Fin K, |g k2|) (1 / 1000000000000) = 1 := by
  have habs : (∑ k2 : Fin K, |g k2|) = ∑ k2 : Fin K, g k2 :=
    Finset.sum_congr rfl fun k _ => abs_of_pos (hpos k)
  rw [habs, max_eq_left hbig.le, ← Finset.sum_div,
    div_self (ne_of_gt (lt_trans (by norm_num) hbig))]

theorem eStep_resp_rowsum {B S K F : ℕ} (hK : 0 < K) (expF : ℚ → ℚ)
    (hexp : ∀ x, 0 ≤ expF x)
    (mvnLP : DataT B S F → MeansT B K F → CovT B K F → RespT B S K)
    (X : DataT B S F) (means : MeansT B K F) (cov : CovT B K F)
    (b : Fin B) (s : Fin S) :
    ∑ k : Fin K, (eStep expF mvnLP X means cov).1 b s k = 1 := by
  simp only [eStep]
  have hpos : ∀ k : Fin K, 0 < expF (mvnLP X means cov b s k) + 1 / 100000000 := by
    intro k
    have := hexp (mvnLP X means cov b s k)
    linarith
  have hbig : (1 : ℚ) / 1000000000000 <
      ∑ k : Fin K, (expF (mvnLP X means cov b s k) + 1 / 100000000) := by
    obtain ⟨k0⟩ := Fin.pos_iff_nonempty.mp hK
    have h2 : expF (mvnLP X means cov b s k0) + 1 / 100000000 ≤
        ∑ k : Fin K, (expF (mvnLP X means cov b s k) + 1 / 100000000) :=
      Finset.single_le_sum (fun k _ => (hpos k).le) (Finset.mem_univ k0)
    have h1 := hexp (mvnLP X means cov b s k0)
    have h3 : (1 : ℚ) / 1000000000000 < 1 / 100000000 := by norm_num
    linarith
  exact sum_div_max_abs_eq_one
    (fun k => expF (mvnLP X means cov b s k) + 1 / 100000000) hpos hbig

/-- C4: for every data/means/covariance input the responsibilities returned
by `_e_step` sum to 1 over the component axis for every `(batch, sample)`
pair, in exact arithmetic: `prob = exp(log_prob) + 1e-8` is at least
`1e-8 > 0` even when every density underflows to zero (`expF` is only
assumed nonnegative, as real `exp` is, so total underflow `expF = 0` is
covered), hence the L1 normalization divides by the true positive row sum. -/
theorem eStep_resp_rows_sum_to_one {B S K F : ℕ} (hK : 0 < K) (expF : ℚ → ℚ)
    (hexp : ∀ x, 0 ≤ expF x)
    (mvnLP : DataT B S F → MeansT B K F → CovT B K F → RespT B S K)
    (X : DataT B S F) (means : MeansT B K F) (cov : CovT B K F)
    (b : Fin B) (s : Fin S) :
    ∑ k : Fin K, (eStep expF mvnLP X means cov).1 b s k = 1 :=
  eStep_resp_rowsum hK expF hexp mvnLP X means cov b s

/-- Witness for `eStep_resp_rows_sum_to_one`: one batch, one sample, two
components, one feature, `expF = 0` everywhere (total underflow),
`mvnLP = 0`, data/means/covariance all zero. -/
theorem eStep_resp_rows_sum_to_one_witness :
    (0 < 2)
  ∧ (∀ x : ℚ, 0 ≤ (fun _ : ℚ => (0 : ℚ)) x)
  ∧ ∑ k : Fin 2,
      (eStep (fun _ : ℚ => (0 : ℚ))
        (fun (_ : DataT 1 1 1) (_ : MeansT 1 2 1) (_ : CovT 1 2 1) =>
          fun _ _ _ => (0 : ℚ))
        (fun _ _ _ => 0) (fun _ _ _ => 0) (fun _ _ _ _ => 0)).1 0 0 k = 1 :=
  ⟨by decide, fun _ => le_refl 0,
    eStep_resp_rows_sum_to_one (by decide) _ (fun _ => le_refl 0) _ _ _ _ 0 0⟩

/-- C7: the bundle returned by `forward` is one update out of phase: with
`n ≥ 1` configured iterations, `resp` and `log_prob` are the outputs of the
last E-step, evaluated at the parameters reached after `n - 1` full
EM updates (i.e. from *before* the final M-step), while `means`,
`covariance` and `prior` are produced by the final M-step from that very
`resp`. -/
theorem forward_output_one_update_out_of_phase {B S K F : ℕ} (expF : ℚ → ℚ)
    (mvnLP : DataT B S F → MeansT B K F → CovT B K F → RespT B S K)
    (reg : ℚ) (ctype : String) (n : ℕ) (hn : 1 ≤ n) (X : DataT B S F)
    (means0 : MeansT B K F) (cov0 : CovT B K F) :
    forwardFit expF mvnLP reg ctype n X means0 cov0 =
      let mc := (emStepParams expF mvnLP reg ctype X)^[n - 1]
        (means0, initParamsCov ctype cov0)
      let el := eStep expF mvnLP X mc.1 mc.2
      ⟨el.1, el.2, mStepMeans X el.1, mStepCov reg ctype X el.1,
        mStepPrior el.1⟩ :=
  emLoop_eq expF mvnLP reg ctype X (n - 1) (means0, initParamsCov ctype cov0)

/-- Witness for `forward_output_one_update_out_of_phase`: one iteration,
one batch, one sample, one component, one feature, all-zero inputs. -/
theorem forward_output_one_update_out_of_phase_witness :
    (1 ≤ 1)
  ∧ forwardFit (fun _ : ℚ => (0 : ℚ))
      (fun (_ : DataT 1 1 1) (_ : MeansT 1 1 1) (_ : CovT 1 1 1) =>
        fun _ _ _ => (0 : ℚ))
      (1 / 10000) "diag" 1 (fun _ _ _ => 0) (fun _ _ _ => 0)
      (fun _ _ _ _ => 0) =
      (let mc := (emStepParams (fun _ : ℚ => (0 : ℚ))
          (fun (_ : DataT 1 1 1) (_ : MeansT 1 1 1) (_ : CovT 1 1 1) =>
            fun _ _ _ => (0 : ℚ)) (1 / 10000) "diag"
          (fun _ _ _ => 0))^[1 - 1]
        ((fun _ _ _ => 0), initParamsCov "diag" (fun _ _ _ _ => 0))
      let el := eStep (fun _ : ℚ => (0 : ℚ))
        (fun (_ : DataT 1 1 1) (_ : MeansT 1 1 1) (_ : CovT 1 1 1) =>
          fun _ _ _ => (0 : ℚ)) (fun _ _ _ => 0) mc.1 mc.2
      ⟨el.1, el.2, mStepMeans (fun _ _ _ => 0) el.1,
        mStepCov (1 / 10000) "diag" (fun _ _ _ => 0) el.1,
        mStepPrior el.1⟩) :=
  ⟨le_refl 1,
    forward_output_one_update_out_of_phase _ _ (1 / 10000) "diag" 1
      (le_refl 1) _ _ _⟩

/-- `Tensor.sum(dim=d, keepdims=True)` at shape level: axis `d` becomes 1. -/
def sumKeepdimShape (l : List ℕ) (d : ℕ) : List ℕ :=
  l.set d 1

/-- Shape of the tensor returned as `prior` by `_m_step` (lines 56, 61, 74):
`resp` is viewed as `(n_batch, n_samples, n_components, 1)` and summed over
axis 1 with `keepdims=True`; `prior` is that tensor `_bottom`, with no
squeeze applied. -/
def mStepPriorShape (B S K : ℕ) : List ℕ :=
  sumKeepdimShape [B, S, K, 1] 1

/-- C5 counterexample: at `n_batch = 2`, `n_samples = 3`, `n_components = 4`
the prior returned by `_m_step` has shape `[2, 1, 4, 1]`, not the claimed
`(batch, components, 1) = [2, 4, 1]` — `_bottom` keeps the summed sample
axis as a singleton and is never squeezed. -/
theorem mStep_prior_shape_not_rank3 :
    mStepPriorShape 2 3 4 ≠ [2, 4, 1] := by
  decide

/-- C5 amended: the prior in the bundle returned by `forward` equals the
un-normalized per-component sum over the sample axis of the returned
responsibilities (never divided by the number of samples), but its shape is
`(batch, 1, components, 1)`, not `(batch, components, 1)`. -/
theorem mStep_prior_unnormalized_sum_and_shape {B S K F : ℕ} (expF : ℚ → ℚ)
    (mvnLP : DataT B S F → MeansT B K F → CovT B K F → RespT B S K)
    (reg : ℚ) (ctype : String) (n : ℕ) (hn : 1 ≤ n) (X : DataT B S F)
    (means0 : MeansT B K F) (cov0 : CovT B K F) (b : Fin B) (k : Fin K) :
    (forwardFit expF mvnLP reg ctype n X means0 cov0).prior b k =
      ∑ s : Fin S, (forwardFit expF mvnLP reg ctype n X means0 cov0).resp b s k
  ∧ mStepPriorShape B S K = [B, 1, K, 1] := by
  constructor
  · rw [forwardFit, emLoop_eq]
    rfl
  · rfl

/-- Witness for `mStep_prior_unnormalized_sum_and_shape`: one iteration,
one batch, two samples, one component, one feature, all-zero inputs. -/
theorem mStep_prior_unnormalized_sum_and_shape_witness :
    (1 ≤ 1)
  ∧ ((forwardFit (fun _ : ℚ => (0 : ℚ))
        (fun (_ : DataT 1 2 1) (_ : MeansT 1 1 1) (_ : CovT 1 1 1) =>
          fun _ _ _ => (0 : ℚ))
        (1 / 10000) "diag" 1 (fun _ _ _ => 0) (fun _ _ _ => 0)
        (fun _ _ _ _ => 0)).prior 0 0 =
      ∑ s : Fin 2, (forwardFit (fun _ : ℚ => (0 : ℚ))
        (fun (_ : DataT 1 2 1) (_ : MeansT 1 1 1) (_ : CovT 1 1 1) =>
          fun _ _ _ => (0 : ℚ))
        (1 / 10000) "diag" 1 (fun _ _ _ => 0) (fun _ _ _ => 0)
        (fun _ _ _ _ => 0)).resp 0 s 0
    ∧ mStepPriorShape 1 2 1 = [1, 1, 1, 1]) :=
  ⟨le_refl 1,
    mStep_prior_unnormalized_sum_and_shape _ _ (1 / 10000) "diag" 1
      (le_refl 1) _ _ _ 0 0⟩

/-- Spec-side comparison definition: the per-batch sample mean of the data,
`(Σ_s X[b, s, f]) / n_samples`. -/
def sampleMean {B S F : ℕ} (X : DataT B S F) : Fin B → Fin F → ℚ :=
  fun b f => (∑ s : Fin S, X b s f) / (S : ℚ)

theorem eStep_resp_one_component {B S F : ℕ} (expF : ℚ → ℚ)
    (hexp : ∀ x, 0 ≤ expF x)
    (mvnLP : DataT B S F → MeansT B 1 F → CovT B 1 F → RespT B S 1)
    (X : DataT B S F) (means : MeansT B 1 F) (cov : CovT B 1 F)
    (b : Fin B) (s : Fin S) (k : Fin 1) :
    (eStep expF mvnLP X means cov).1 b s k = 1 := by
  have hk : k = 0 := Subsingleton.elim k 0
  subst hk
  simp only [eStep]
  rw [Fin.sum_univ_one]
  have h0 := hexp (mvnLP X means cov b s 0)
  have hpos : 0 < expF (mvnLP X means cov b s 0) + 1 / 100000000 := by linarith
  rw [abs_of_pos hpos, max_eq_left (by linarith), div_self (ne_of_gt hpos)]

theorem mStepMeans_of_resp_one {B S K F : ℕ} (X : DataT B S F)
    (resp : RespT B S K) (b : Fin B) (k : Fin K) (f : Fin F)
    (h : ∀ s, resp b s k = 1) :
    mStepMeans X resp b k f = sampleMean X b f := by
  unfold mStepMeans sampleMean
  have h1 : (∑ s : Fin S, resp b s k * X b s f) = ∑ s : Fin S, X b s f :=
    Finset.sum_congr rfl fun s _ => by rw [h s, one_mul]
  have h2 : (∑ s : Fin S, resp b s k) = (S : ℚ) := by
    rw [Finset.sum_congr rfl fun s _ => h s]
    simp [Finset.sum_const, Finset.card_univ]
  rw [h1, h2]

/-- C8: with a single component, for every data tensor, any initial
parameters, and any iteration count `n ≥ 1`, the `resp` returned by
`forward` is all-ones — the single component's probability, which is at
least the additive epsilon `1e-8`, is normalized against itself — and the
returned `means` is the per-batch sample mean of the data. -/
theorem single_component_resp_ones_means_sample_mean {B S F : ℕ}
    (expF : ℚ → ℚ) (hexp : ∀ x, 0 ≤ expF x)
    (mvnLP : DataT B S F → MeansT B 1 F → CovT B 1 F → RespT B S 1)
    (reg : ℚ) (ctype : String) (n : ℕ) (hn : 1 ≤ n) (X : DataT B S F)
    (means0 : MeansT B 1 F) (cov0 : CovT B 1 F) (b : Fin B) (s : Fin S)
    (k : Fin 1) (f : Fin F) :
    (forwardFit expF mvnLP reg ctype n X means0 cov0).resp b s k = 1
  ∧ (forwardFit expF mvnLP reg ctype n X means0 cov0).means b k f =
      sampleMean X b f := by
  rw [forwardFit, emLoop_eq]
  constructor
  · exact eStep_resp_one_component expF hexp mvnLP X _ _ b s k
  · exact mStepMeans_of_resp_one X _ b k f fun s2 =>
      eStep_resp_one_component expF hexp mvnLP X _ _ b s2 k

/-- Witness for `single_component_resp_ones_means_sample_mean`: one batch,
one sample, one feature, one iteration, all-zero inputs. -/
theorem single_component_resp_ones_means_sample_mean_witness :
    (∀ x : ℚ, 0 ≤ (fun _ : ℚ => (0 : ℚ)) x)
  ∧ (1 ≤ 1)
  ∧ ((forwardFit (fun _ : ℚ => (0 : ℚ))
        (fun (_ : DataT 1 1 1) (_ : MeansT 1 1 1) (_ : CovT 1 1 1) =>
          fun _ _ _ => (0 : ℚ))
        (1 / 10000) "diag" 1 (fun _ _ _ => 0) (fun _ _ _ => 0)
        (fun _ _ _ _ => 0)).resp 0 0 0 = 1
    ∧ (forwardFit (fun _ : ℚ => (0 : ℚ))
        (fun (_ : DataT 1 1 1) (_ : MeansT 1 1 1) (_ : CovT 1 1 1) =>
          fun _ _ _ => (0 : ℚ))
        (1 / 10000) "diag" 1 (fun _ _ _ => 0) (fun _ _ _ => 0)
        (fun _ _ _ _ => 0)).means 0 0 0 =
      sampleMean (fun (_ : Fin 1) (_ : Fin 1) (_ : Fin 1) => (0 : ℚ)) 0 0) :=
  ⟨fun _ => le_refl 0, le_refl 1,
    single_component_resp_ones_means_sample_mean _ (fun _ => le_refl 0) _
      (1 / 10000) "diag" 1 (le_refl 1) _ _ _ 0 0 0 0⟩

/-- C9 (implicit): in exact arithmetic the total prior mass conserves the
sample count — for every batch element, summing the prior returned by
`forward` over the component axis yields exactly `n_samples`, because every
sample's responsibilities sum to 1 and the prior is their un-normalized
per-component sum. -/
theorem prior_total_mass_equals_sample_count {B S K F : ℕ} (hK : 0 < K)
    (expF : ℚ → ℚ) (hexp : ∀ x, 0 ≤ expF x)
    (mvnLP : DataT B S F → MeansT B K F → CovT B K F → RespT B S K)
    (reg : ℚ) (ctype : String) (n : ℕ) (hn : 1 ≤ n) (X : DataT B S F)
    (means0 : MeansT B K F) (cov0 : CovT B K F) (b : Fin B) :
    ∑ k : Fin K, (forwardFit expF mvnLP reg ctype n X means0 cov0).prior b k =
      (S : ℚ) := by
  rw [forwardFit, emLoop_eq]
  show ∑ k : Fin K, mStepPrior _ b k = (S : ℚ)
  unfold mStepPrior
  rw [Finset.sum_comm]
  have hrow : ∀ s : Fin S,
      ∑ k : Fin K, (eStep expF mvnLP X
        ((emStepParams expF mvnLP reg ctype X)^[n - 1]
          (means0, initParamsCov ctype cov0)).1
        ((emStepParams expF mvnLP reg ctype X)^[n - 1]
          (means0, initParamsCov ctype cov0)).2).1 b s k = 1 :=
    fun s => eStep_resp_rowsum hK expF hexp mvnLP X _ _ b s
  rw [Finset.sum_congr rfl fun s _ => hrow s]
  simp [Finset.sum_const, Finset.card_univ]

/-- Witness for `prior_total_mass_equals_sample_count`: one batch, three
samples, two components, one feature, one iteration, all-zero inputs. -/
theorem prior_total_mass_equals_sample_count_witness :
    (0 < 2)
  ∧ (∀ x : ℚ, 0 ≤ (fun _ : ℚ => (0 : ℚ)) x)
  ∧ (1 ≤ 1)
  ∧ ∑ k : Fin 2,
      (forwardFit (fun _ : ℚ => (0 : ℚ))
        (fun (_ : DataT 1 3 1) (_ : MeansT 1 2 1) (_ : CovT 1 2 1) =>
          fun _ _ _ => (0 : ℚ))
        (1 / 10000) "diag" 1 (fun _ _ _ => 0) (fun _ _ _ => 0)
        (fun _ _ _ _ => 0)).prior 0 k = ((3 : ℕ) : ℚ) :=
  ⟨by decide, fun _ => le_refl 0, le_refl 1,
    prior_total_mass_equals_sample_count (by decide) _ (fun _ => le_refl 0) _
      (1 / 10000) "diag" 1 (le_refl 1) _ _ _ 0⟩

/-- A heap of PyTorch tensor storages: `next` is the next fresh address,
`mem` the contents at each address, with abstract payload type `V`.
Tensor-producing torch calls allocate fresh storages; `_`-suffixed methods
and slice assignments write a storage in place; `view` / `permute` /
`unsqueeze` / `squeeze` / `expand` return views sharing the same storage. -/
structure Heap (V : Type) where
  next : ℕ
  mem : ℕ → V

/-- Allocate a fresh storage holding `v`; returns the new heap and address. -/
def halloc {V : Type} (h : Heap V) (v : V) : Heap V × ℕ :=
  (⟨h.next + 1, fun a => if a = h.next then v else h.mem a⟩, h.next)

/-- Write `v` into the existing storage at `a` (PyTorch in-place operation). -/
def hwrite {V : Type} (h : Heap V) (a : ℕ) (v : V) : Heap V :=
  ⟨h.next, fun a2 => if a2 = a then v else h.mem a2⟩

/-- Read the storage at `a`. -/
def hread {V : Type} (h : Heap V) (a : ℕ) : V :=
  h.mem a


/-- The `spherical` block of `_enforce_covariance_type` (lines 110-116) at
storage level: two `mean` allocations, a slice assignment
(`covariance[..., :, :] = ...`) writing the current covariance storage in
place, then `covariance * diag_mask` allocating a fresh storage that is
rebound.  Returns the heap and the rebound covariance address. -/
def sphStepM {V : Type} (op : String → List V → V) (h : Heap V)
    (covA maskA : ℕ) : Heap V × ℕ :=
  let q1 := halloc h (op "mean_dim_neg2" [hread h covA])
  let q2 := halloc q1.1 (op "mean_dim_neg1" [hread q1.1 q1.2])
  let q3 := hwrite q2.1 covA (op "broadcast_assign" [hread q2.1 q2.2])
  halloc q3 (op "mul" [hread q3 covA, hread q3 maskA])

/-- The `tied` block of `_enforce_covariance_type` (lines 121-124) at
storage level: a `mean` allocation, then a slice assignment writing the
current covariance storage in place; the covariance address is unchanged. -/
def tiedStepM {V : Type} (op : String → List V → V) (h : Heap V)
    (covA : ℕ) : Heap V × ℕ :=
  let r1 := halloc h (op "mean_dim1" [hread h covA])
  (hwrite r1.1 covA (op "broadcast_assign" [hread r1.1 r1.2]), covA)

/-- `_enforce_covariance_type` (lines 105-125) at storage level, parametric
in the numeric semantics `op` of the torch primitives.  Lines 107-108
allocate the eye mask; then the three sequential substring-guarded blocks:
spherical (`sphStepM`, writes in place then rebinds), diag
(`covariance * diag_mask`, fresh), tied (`tiedStepM`, writes in place). -/
def enforceCovM {V : Type} (op : String → List V → V) (ctype : String)
    (h : Heap V) (covA : ℕ) : Heap V × ℕ :=
  let p1 := halloc h (op "torch.eye" [])
  let p2 := halloc p1.1 (op "reshape" [hread p1.1 p1.2])
  let maskA := p2.2
  let st :=
    if pyIn "spherical" ctype then sphStepM op p2.1 covA maskA
    else (p2.1, covA)
  let st2 :=
    if pyIn "diag" ctype then
      halloc st.1 (op "mul" [hread st.1 st.2, hread st.1 maskA])
    else st
  let st3 :=
    if pyIn "tied" ctype then tiedStepM op st2.1 st2.2
    else st2
  st3

/-- Lines 140-147 of `init_params` (means not supplied) at storage level:
`X.new(...)` allocates, `.random_(...)` writes that storage in place, the
arange/expand expression allocates, `sampled += ...` writes `sampled` in
place again, `.long()` allocates, `index_select(...).view(...)` allocates
the means. -/
def randMeansM {V : Type} (op : String → List V → V) (h : Heap V)
    (dataA : ℕ) : Heap V × ℕ :=
  let s1 := halloc h (op "X.new" [hread h dataA])
  let s2 := hwrite s1.1 s1.2 (op "random_" [hread s1.1 s1.2])
  let s3 := halloc s2 (op "X.new_arange_expand" [hread s2 dataA])
  let s4 := hwrite s3.1 s1.2 (op "iadd" [hread s3.1 s1.2, hread s3.1 s3.2])
  let s5 := halloc s4 (op "long" [hread s4 s1.2])
  halloc s5.1 (op "index_select_view" [hread s5.1 dataA, hread s5.1 s5.2])

/-- Lines 149-152 of `init_params` (covariance not supplied) at storage
level: `X.new(...)` allocates and `.fill_(...)` writes the fresh storage in
place. -/
def fillCovM {V : Type} (op : String → List V → V) (h : Heap V)
    (dataA : ℕ) : Heap V × ℕ :=
  let t1 := halloc h (op "X.new" [hread h dataA])
  (hwrite t1.1 t1.2 (op "fill_" [hread t1.1 t1.2]), t1.2)

/-- `init_params` (lines 127-164) at storage level.  A supplied 3-axis
covariance's `unsqueeze(-1).expand(...)` (line 155) is a view (same
storage).  Line 160 `covariance * diag_mask` allocates a fresh storage, so
the subsequent `_enforce_covariance_type` never writes into a caller
storage. -/
def initParamsM {V : Type} (op : String → List V → V) (ctype : String)
    (h : Heap V) (dataA : ℕ) (meansA covA : Option ℕ) : Heap V × ℕ × ℕ :=
  let pm : Heap V × ℕ :=
    match meansA with
    | some a => (h, a)
    | none => randMeansM op h dataA
  let pc : Heap V × ℕ :=
    match covA with
    | some a => (pm.1, a)
    | none => fillCovM op pm.1 dataA
  let e1 := halloc pc.1 (op "torch.eye" [])
  let e2 := halloc e1.1 (op "reshape" [hread e1.1 e1.2])
  let c1 := halloc e2.1 (op "mul" [hread e2.1 pc.2, hread e2.1 e2.2])
  let c2 := enforceCovM op ctype c1.1 c1.2
  (c2.1, pm.2, c2.2)

/-- `_e_step` (lines 79-103) at storage level: the three `.view`s share
their arguments' storages; `log_prob`, `exp`, `+ 1e-8` and `normalize`
each allocate.  Returns `(heap, respA, logProbA)`. -/
def eStepM {V : Type} (op : String → List V → V) (h : Heap V)
    (dataA meansA covA : ℕ) : Heap V × ℕ × ℕ :=
  let l1 := halloc h (op "mvn_log_prob" [hread h dataA, hread h meansA, hread h covA])
  let l2 := halloc l1.1 (op "exp" [hread l1.1 l1.2])
  let l3 := halloc l2.1 (op "add_eps" [hread l2.1 l2.2])
  let l4 := halloc l3.1 (op "l1_normalize" [hread l3.1 l3.2])
  (l4.1, l4.2, l1.2)

/-- `_m_step` (lines 45-76) at storage level: `view`/`permute`/`unsqueeze`/
`squeeze` are views; every arithmetic op allocates; `clamp` allocates, so
`_enforce_covariance_type` receives a storage fresh within the call; the
returned `prior` is the `_bottom` storage itself.
Returns `(heap, meansA, covA, priorA)`. -/
def mStepM {V : Type} (op : String → List V → V) (ctype : String)
    (h : Heap V) (dataA respA : ℕ) : Heap V × ℕ × ℕ × ℕ :=
  let t1 := halloc h (op "mul" [hread h respA, hread h dataA])
  let t2 := halloc t1.1 (op "sum_dim1" [hread t1.1 t1.2])
  let t3 := halloc t2.1 (op "sum_dim1" [hread t2.1 respA])
  let t4 := halloc t3.1 (op "div" [hread t3.1 t2.2, hread t3.1 t3.2])
  let t5 := halloc t4.1 (op "sub" [hread t4.1 dataA, hread t4.1 t4.2])
  let t6 := halloc t5.1 (op "mul" [hread t5.1 t5.2, hread t5.1 respA])
  let t7 := halloc t6.1 (op "matmul" [hread t6.1 t6.2, hread t6.1 t6.2])
  let t8 := halloc t7.1 (op "div" [hread t7.1 t7.2, hread t7.1 t3.2])
  let t9 := halloc t8.1 (op "clamp" [hread t8.1 t8.2])
  let c := enforceCovM op ctype t9.1 t9.2
  (c.1, t4.2, c.2, t3.2)

/-- The loop of `forward` (lines 186-188) at storage level, with `fuel + 1`
iterations left.  Returns `(heap, respA, logProbA, meansA, covA, priorA)`. -/
def emLoopM {V : Type} (op : String → List V → V) (ctype : String)
    (dataA : ℕ) (fuel : ℕ) (h : Heap V) (mA cA : ℕ) :
    Heap V × ℕ × ℕ × ℕ × ℕ × ℕ :=
  let e := eStepM op h dataA mA cA
  let m := mStepM op ctype e.1 dataA e.2.1
  match fuel with
  | 0 => (m.1, e.2.1, e.2.2, m.2.1, m.2.2.1, m.2.2.2)
  | f + 1 => emLoopM op ctype dataA f m.1 m.2.1 m.2.2.1

/-- `forward` (lines 166-196) at storage level, for `n ≥ 1` iterations:
`data.view(...)` (line 183) and the final `resp.view`/`log_prob.view`
(lines 191-192) are views sharing storage and need no heap action. -/
def forwardM {V : Type} (op : String → List V → V) (ctype : String)
    (n : ℕ) (h : Heap V) (dataA : ℕ) (meansA covA : Option ℕ) :
    Heap V × ℕ × ℕ × ℕ × ℕ × ℕ :=
  let ip := initParamsM op ctype h dataA meansA covA
  emLoopM op ctype dataA (n - 1) ip.1 ip.2.1 ip.2.2

theorem halloc_fst_next {V : Type} (h : Heap V) (v : V) :
    (halloc h v).1.next = h.next + 1 := rfl

theorem halloc_snd {V : Type} (h : Heap V) (v : V) :
    (halloc h v).2 = h.next := rfl

theorem hwrite_next {V : Type} (h : Heap V) (a0 : ℕ) (v : V) :
    (hwrite h a0 v).next = h.next := rfl

/-- Heap evolution whose writes and allocations all happen at or above the
fence `c`: every storage below `c` keeps its contents. -/
def Frames {V : Type} (c : ℕ) (h h2 : Heap V) : Prop :=
  h.next ≤ h2.next ∧ ∀ a, a < c → h2.mem a = h.mem a

theorem frames_rfl {V : Type} {c : ℕ} {h : Heap V} : Frames c h h :=
  ⟨le_refl _, fun _ _ => rfl⟩

theorem frames_trans {V : Type} {c : ℕ} {h1 h2 h3 : Heap V}
    (f1 : Frames c h1 h2) (f2 : Frames c h2 h3) : Frames c h1 h3 :=
  ⟨f1.1.trans f2.1, fun a ha => (f2.2 a ha).trans (f1.2 a ha)⟩

theorem frames_halloc {V : Type} {c : ℕ} {h : Heap V} {v : V}
    (hcn : c ≤ h.next) : Frames c h (halloc h v).1 := by
  refine ⟨Nat.le_succ _, fun a ha => ?_⟩
  have hne : a ≠ h.next := by omega
  simp [halloc, hne]

theorem frames_hwrite {V : Type} {c : ℕ} {h : Heap V} {a0 : ℕ} {v : V}
    (ha0 : c ≤ a0) : Frames c h (hwrite h a0 v) := by
  refine ⟨le_refl _, fun a ha => ?_⟩
  have hne : a ≠ a0 := by omega
  simp [hwrite, hne]

/-- Invariant carried along a storage-level computation: the heap evolved
from `h` without touching storages below the fence `c`, and the tracked
covariance address lies at or above `c`. -/
def HSt {V : Type} (c : ℕ) (h : Heap V) (st : Heap V × ℕ) : Prop :=
  Frames c h st.1 ∧ c ≤ st.2

theorem hst_base {V : Type} {c : ℕ} {h : Heap V} (hc : c ≤ h.next) :
    HSt c h (h, h.next) :=
  ⟨frames_rfl, hc⟩

theorem hst_keep {V : Type} {c : ℕ} {h X : Heap V} {A : ℕ} {v : V}
    (h1 : HSt c h (X, A)) (hc : c ≤ h.next) :
    HSt c h ((halloc X v).1, A) :=
  ⟨frames_trans h1.1 (frames_halloc (hc.trans h1.1.1)), h1.2⟩

theorem hst_new {V : Type} {c : ℕ} {h X : Heap V} {A : ℕ} {v : V}
    (h1 : HSt c h (X, A)) (hc : c ≤ h.next) :
    HSt c h ((halloc X v).1, (halloc X v).2) :=
  ⟨frames_trans h1.1 (frames_halloc (hc.trans h1.1.1)),
    by rw [halloc_snd]; exact hc.trans h1.1.1⟩

theorem hst_sph {V : Type} {op : String → List V → V} {c : ℕ}
    {h X : Heap V} {A maskA : ℕ} (h1 : HSt c h (X, A)) (hc : c ≤ h.next) :
    HSt c h ((sphStepM op X A maskA).1, (sphStepM op X A maskA).2) := by
  have hXn : c ≤ X.next := hc.trans h1.1.1
  constructor
  · simp only [sphStepM]
    refine frames_trans h1.1 ?_
    refine frames_trans ?_ (frames_halloc ?_)
    · refine frames_trans ?_ (frames_hwrite h1.2)
      refine frames_trans (frames_halloc hXn) (frames_halloc ?_)
      simp only [halloc_fst_next]
      omega
    · simp only [hwrite_next, halloc_fst_next]
      omega
  · simp only [sphStepM, halloc_snd, hwrite_next, halloc_fst_next]
    omega

theorem hst_tied {V : Type} {op : String → List V → V} {c : ℕ}
    {h X : Heap V} {A : ℕ} (h1 : HSt c h (X, A)) (hc : c ≤ h.next) :
    HSt c h ((tiedStepM op X A).1, (tiedStepM op X A).2) := by
  have hXn : c ≤ X.next := hc.trans h1.1.1
  constructor
  · simp only [tiedStepM]
    exact frames_trans h1.1
      (frames_trans (frames_halloc hXn) (frames_hwrite h1.2))
  · simp only [tiedStepM]
    exact h1.2

theorem hst_rand {V : Type} {op : String → List V → V} {c : ℕ}
    {h X : Heap V} {A : ℕ} {dataA : ℕ} (h1 : HSt c h (X, A))
    (hc : c ≤ h.next) :
    HSt c h ((randMeansM op X dataA).1, (randMeansM op X dataA).2) := by
  have hXn : c ≤ X.next := hc.trans h1.1.1
  constructor
  · simp only [randMeansM]
    refine frames_trans h1.1 ?_
    refine frames_trans ?_ (frames_halloc ?_)
    · refine frames_trans ?_ (frames_halloc ?_)
      · refine frames_trans ?_ (frames_hwrite ?_)
        · refine frames_trans ?_ (frames_halloc ?_)
          · refine frames_trans (frames_halloc hXn) (frames_hwrite ?_)
            simp only [halloc_snd]
            omega
          · simp only [hwrite_next, halloc_fst_next]
            omega
        · simp only [halloc_snd]
          omega
      · simp only [halloc_fst_next, hwrite_next]
        omega
    · simp only [halloc_fst_next, hwrite_next]
      omega
  · simp only [randMeansM, halloc_snd, halloc_fst_next, hwrite_next]
    omega

theorem hst_fill {V : Type} {op : String → List V → V} {c : ℕ}
    {h X : Heap V} {A : ℕ} {dataA : ℕ} (h1 : HSt c h (X, A))
    (hc : c ≤ h.next) :
    HSt c h ((fillCovM op X dataA).1, (fillCovM op X dataA).2) := by
  have hXn : c ≤ X.next := hc.trans h1.1.1
  constructor
  · simp only [fillCovM]
    refine frames_trans h1.1 ?_
    refine frames_trans (frames_halloc hXn) (frames_hwrite ?_)
    simp only [halloc_snd]
    omega
  · simp only [fillCovM, halloc_snd, hwrite_next]
    omega

theorem enforceCovM_hst {V : Type} {op : String → List V → V}
    {ctype : String} {c : ℕ} {h X : Heap V} {A : ℕ} (hc : c ≤ h.next)
    (hst : HSt c h (X, A)) :
    Frames c h (enforceCovM op ctype X A).1 := by
  by_cases hs : pyIn "spherical" ctype = true
  · by_cases hd : pyIn "diag" ctype = true
    · by_cases ht : pyIn "tied" ctype = true
      · simp only [enforceCovM, if_pos hs, if_pos hd, if_pos ht]
        exact (hst_tied (hst_new (hst_sph (hst_keep (hst_keep hst hc) hc) hc) hc) hc).1
      · simp only [enforceCovM, if_pos hs, if_pos hd, if_neg ht]
        exact (hst_new (hst_sph (hst_keep (hst_keep hst hc) hc) hc) hc).1
    · by_cases ht : pyIn "tied" ctype = true
      · simp only [enforceCovM, if_pos hs, if_neg hd, if_pos ht]
        exact (hst_tied (hst_sph (hst_keep (hst_keep hst hc) hc) hc) hc).1
      · simp only [enforceCovM, if_pos hs, if_neg hd, if_neg ht]
        exact (hst_sph (hst_keep (hst_keep hst hc) hc) hc).1
  · by_cases hd : pyIn "diag" ctype = true
    · by_cases ht : pyIn "tied" ctype = true
      · simp only [enforceCovM, if_neg hs, if_pos hd, if_pos ht]
        exact (hst_tied (hst_new (hst_keep (hst_keep hst hc) hc) hc) hc).1
      · simp only [enforceCovM, if_neg hs, if_pos hd, if_neg ht]
        exact (hst_new (hst_keep (hst_keep hst hc) hc) hc).1
    · by_cases ht : pyIn "tied" ctype = true
      · simp only [enforceCovM, if_neg hs, if_neg hd, if_pos ht]
        exact (hst_tied (hst_keep (hst_keep hst hc) hc) hc).1
      · simp only [enforceCovM, if_neg hs, if_neg hd, if_neg ht]
        exact (hst_keep (hst_keep hst hc) hc).1

theorem eStepM_frames {V : Type} (op : String → List V → V) {c : ℕ}
    (h : Heap V) (dataA meansA covA : ℕ) (hc : c ≤ h.next) :
    Frames c h (eStepM op h dataA meansA covA).1 := by
  simp only [eStepM]
  exact (hst_new (hst_new (hst_new (hst_new (hst_base hc) hc) hc) hc) hc).1

theorem mStepM_frames {V : Type} (op : String → List V → V) (ctype : String)
    {c : ℕ} (h : Heap V) (dataA respA : ℕ) (hc : c ≤ h.next) :
    Frames c h (mStepM op ctype h dataA respA).1 := by
  simp only [mStepM]
  exact enforceCovM_hst hc
    (hst_new (hst_new (hst_new (hst_new (hst_new (hst_new (hst_new (hst_new
      (hst_new (hst_base hc) hc) hc) hc) hc) hc) hc) hc) hc) hc)

theorem initParamsM_frames {V : Type} (op : String → List V → V)
    (ctype : String) {c : ℕ} (h : Heap V) (dataA : ℕ)
    (meansA covA : Option ℕ) (hc : c ≤ h.next) :
    Frames c h (initParamsM op ctype h dataA meansA covA).1 := by
  cases meansA with
  | some am =>
    cases covA with
    | some ac =>
      simp only [initParamsM]
      exact enforceCovM_hst hc
        (hst_new (hst_keep (hst_keep (hst_base hc) hc) hc) hc)
    | none =>
      simp only [initParamsM]
      exact enforceCovM_hst hc
        (hst_new (hst_keep (hst_keep (hst_fill (hst_base hc) hc) hc) hc) hc)
  | none =>
    cases covA with
    | some ac =>
      simp only [initParamsM]
      exact enforceCovM_hst hc
        (hst_new (hst_keep (hst_keep (hst_rand (hst_base hc) hc) hc) hc) hc)
    | none =>
      simp only [initParamsM]
      exact enforceCovM_hst hc
        (hst_new (hst_keep (hst_keep
          (hst_fill (hst_rand (hst_base hc) hc) hc) hc) hc) hc)

theorem emLoopM_frames {V : Type} (op : String → List V → V) (ctype : String)
    (dataA : ℕ) (fuel : ℕ) {c : ℕ} (h : Heap V) (mA cA : ℕ)
    (hc : c ≤ h.next) :
    Frames c h (emLoopM op ctype dataA fuel h mA cA).1 := by
  induction fuel generalizing h mA cA with
  | zero =>
    simp only [emLoopM]
    have fe := eStepM_frames op h dataA mA cA hc
    exact frames_trans fe
      (mStepM_frames op ctype _ dataA _ (hc.trans fe.1))
  | succ f ih =>
    simp only [emLoopM]
    have fe := eStepM_frames op h dataA mA cA hc
    have fm := mStepM_frames op ctype (eStepM op h dataA mA cA).1 dataA
      (eStepM op h dataA mA cA).2.1 (hc.trans fe.1)
    exact frames_trans (frames_trans fe fm)
      (ih _ _ _ (hc.trans (frames_trans fe fm).1))

theorem forwardM_frames {V : Type} (op : String → List V → V)
    (ctype : String) (n : ℕ) {c : ℕ} (h : Heap V) (dataA : ℕ)
    (meansA covA : Option ℕ) (hc : c ≤ h.next) :
    Frames c h (forwardM op ctype n h dataA meansA covA).1 := by
  simp only [forwardM]
  have fi := initParamsM_frames op ctype h dataA meansA covA hc
  exact frames_trans fi (emLoopM_frames op ctype dataA (n - 1) _ _ _
    (hc.trans fi.1))

/-- C10 (implicit frame property): `forward` never mutates a pre-existing
storage — in particular the caller's data tensor and any externally
supplied means/covariance are unchanged after the call — for every numeric
semantics `op` of the torch primitives, every covariance type and every
iteration count: although `_enforce_covariance_type` writes in place for
the spherical and tied types, `init_params` first multiplies the covariance
by the diagonal mask into a fresh storage before enforcement, the M-step's
`clamp` output is likewise fresh, and every other in-place op (`random_`,
`+=`, `fill_`) targets a storage allocated inside the call. -/
theorem forward_preserves_caller_tensors {V : Type}
    (op : String → List V → V) (ctype : String) (n : ℕ) (h : Heap V)
    (dataA : ℕ) (meansA covA : Option ℕ) (a : ℕ) (ha : a < h.next) :
    (forwardM op ctype n h dataA meansA covA).1.mem a = h.mem a :=
  (forwardM_frames op ctype n h dataA meansA covA (le_refl h.next)).2 a ha

/-- Witness for `forward_preserves_caller_tensors`: payloads are naturals,
`op` returns 0, the initial heap holds one storage (address 0, contents 7)
passed as data, means and covariance, covariance type `"tied"` (an
in-place branch), one iteration. -/
theorem forward_preserves_caller_tensors_witness :
    (0 < (⟨1, fun _ => 7⟩ : Heap ℕ).next)
  ∧ (forwardM (fun _ _ => 0) "tied" 1 (⟨1, fun _ => 7⟩ : Heap ℕ) 0
      (some 0) (some 0)).1.mem 0 = (⟨1, fun _ => 7⟩ : Heap ℕ).mem 0 :=
  ⟨by decide,
    forward_preserves_caller_tensors (fun _ _ => 0) "tied" 1
      (⟨1, fun _ => 7⟩ : Heap ℕ) 0 (some 0) (some 0) 0 (by decide)⟩

end NusslGMM
